import Mathlib

/-!
Shallow embedding of the orientation-estimator core of pebble-level
(src/src/level.c) together with models of the libfixmath routines the
repository links against but whose sources are not in src/.

Conventions of the embedding:
* C `int`, `int32_t` and `fix16_t` values are embedded as `Int`; overflow
  questions are treated by explicit range predicates (`int32Range`) rather
  than by wrapping, so that the embedding computes the mathematically exact
  value the C expressions denote when no overflow occurs.
* The C arithmetic right shift `>>` on a signed operand (gcc on the target
  is arithmetic shift) is floor division by a power of two, which for a
  positive divisor is `Int.ediv`; this is `asr` below.
* The C left shift `x << 4` in `accel_handler` is applied only to values
  with magnitude below 1200, so it is exact multiplication by 16.
* C integer division `/` truncates toward zero and is `Int.tdiv`.
-/

namespace Level

/-- Fix16 representation of 1 (libfixmath scale 2^16). -/
def fix16_one : Int := 65536

/-- Fix16 representation of pi, as in libfixmath (floor of pi * 2^16). -/
def fix16_pi : Int := 205887

/-- Arithmetic shift right by `n` bits: floor division by `2 ^ n`, which is
`Int.ediv` since the divisor is positive.  This embeds the C expression
`s >> n` on a signed `int`. -/
def asr (s : Int) (n : Nat) : Int := Int.ediv s (2 ^ n)

/-- Embedding of `filter` (level.c lines 76-80), with the global
`filter_shift` passed explicitly and the by-pointer state made explicit:
`*state = *state - (*state >> filter_shift) + input; return *state >> filter_shift;`
The first component is the new state, the second the returned output. -/
def filter (shift : Nat) (state input : Int) : Int × Int :=
  let s' := state - asr state shift + input
  (s', asr s' shift)

/-- Modelled from the spec: the repository links libfixmath, whose sources
are not under src/.  The spec (section 4.1) prescribes a digit-by-digit
binary integer square root using only shifts, comparisons and subtraction.
This is that loop; `fuel` counts the remaining bit positions, `bit` scans
powers of four from high to low. -/
def isqrtLoop : Nat → Nat → Nat → Nat → Nat
  | 0, _, res, _ => res
  | fuel + 1, num, res, bit =>
    if bit = 0 then res
    else if res + bit ≤ num then
      isqrtLoop fuel (num - (res + bit)) (res / 2 + bit) (bit / 4)
    else
      isqrtLoop fuel num (res / 2) (bit / 4)

/-- Modelled from the spec: integer square root (floor), satisfying the
spec contract r * r ≤ n < (r+1) * (r+1); 32 rounds of the digit-by-digit
loop cover inputs below 2^64. -/
def isqrt (n : Nat) : Nat := isqrtLoop 32 n 0 (4 ^ 31)

/-- Modelled from the spec: libfixmath fix16_sqrt (not under src/).  A
fix16 value v denotes v / 2^16, so its square root in fix16 is the integer
square root of v * 2^16; the spec contract for integer_sqrt is the floor
square root. -/
def fix16_sqrt (v : Int) : Int := (isqrt (v.toNat * 65536) : Int)

/-- Embedding of `fix16_from_int`: an integer n denotes n * 2^16 in fix16. -/
def fix16_from_int (x : Int) : Int := x * 65536

/-- Embedding of `fix16_abs`: absolute value. -/
def fix16_abs (x : Int) : Int := |x|

/-- Modelled from the spec: libfixmath fix16_div (not under src/).  The
spec (section 4.3 step 5) calls for fixed-point division, i.e. the quotient
a / b at fix16 scale, truncated like C integer division.  The spec does not
define a result for a zero divisor; `Int.tdiv` yields 0 there, and no
theorem below depends on that value. -/
def fix16_div (a b : Int) : Int := Int.tdiv (a * 65536) b

/-- Modelled from the spec: libfixmath fix16_acos (not under src/).  The
spec (section 4.1) specifies a clamped, monotonically non-increasing
fixed-point arccosine: inputs at or above full scale map to 0, inputs at or
below negative full scale map to pi (1800 tenths of a degree after the
conversion in accel_handler), acos 0 corresponds to 90 degrees, and the
identity acos (-x) = pi - acos x holds up to rounding.  The model
interpolates linearly between those contract points; every theorem below
uses only the contract properties (range, clamping), never the
interpolation itself. -/
def fix16_acos (x : Int) : Int :=
  if 65536 ≤ x then 0
  else if x ≤ -65536 then 205887
  else 102944 - Int.ediv (102944 * x) 65536

/-- Embedding of Pebble AccelData as consumed by accel_handler: three
signed axis readings and the did_vibrate flag. -/
structure AccelData where
  x : Int
  y : Int
  z : Int
  did_vibrate : Bool
deriving DecidableEq

/-- Estimator state: the globals of level.c mutated by accel_handler.
`fs0 fs1 fs2` are filter_state[0..2], `n0 n1 n2` are accel_normalized[0..2]
and `angle` is the tilt angle in tenths of a degree last written to the
display (the integer `a` of level.c line 128, from which angle_text is
formatted). -/
structure EstState where
  fs0 : Int
  fs1 : Int
  fs2 : Int
  n0 : Int
  n1 : Int
  n2 : Int
  angle : Int
deriving DecidableEq

/-- Initial state: C globals are zero-initialized. -/
def initState : EstState := ⟨0, 0, 0, 0, 0, 0, 0⟩

/-- Acceptance condition of level.c line 98:
`!data->did_vibrate && abs(data->x) < 1200 && abs(data->y) < 1200 && abs(data->z) < 1200`. -/
def accepted (d : AccelData) : Prop :=
  d.did_vibrate = false ∧ |d.x| < 1200 ∧ |d.y| < 1200 ∧ |d.z| < 1200

instance (d : AccelData) : Decidable (accepted d) := by
  unfold accepted
  infer_instance

/-- New filter states produced by the loop of level.c lines 109-118 on an
accepted sample: each axis value is shifted left by 4 and passed through
its filter. -/
def newFS (shift : Nat) (st : EstState) (d : AccelData) : Int × Int × Int :=
  ((filter shift st.fs0 (d.x * 16)).1,
   (filter shift st.fs1 (d.y * 16)).1,
   (filter shift st.fs2 (d.z * 16)).1)

/-- Filter outputs (the values stored back into accel_raw) for an accepted
sample. -/
def filtered (shift : Nat) (st : EstState) (d : AccelData) : Int × Int × Int :=
  ((filter shift st.fs0 (d.x * 16)).2,
   (filter shift st.fs1 (d.y * 16)).2,
   (filter shift st.fs2 (d.z * 16)).2)

/-- Magnitude-squared accumulation of level.c line 117, as the exact
integer the C expression denotes (the C variable magsq is an int32_t). -/
def magsqOf (shift : Nat) (st : EstState) (d : AccelData) : Int :=
  let f := filtered shift st d
  f.1 * f.1 + f.2.1 * f.2.1 + f.2.2 * f.2.2

/-- Magnitude of level.c line 121: `fix16_sqrt(magsq) << 8`. -/
def magOf (shift : Nat) (st : EstState) (d : AccelData) : Int :=
  fix16_sqrt (magsqOf shift st d) * 256

/-- Normalized vector of level.c lines 122-125:
`accel_normalized[i] = fix16_div(fix16_from_int(accel_raw[i]), mag)`. -/
def normalizedOf (shift : Nat) (st : EstState) (d : AccelData) : Int × Int × Int :=
  let f := filtered shift st d
  let mag := magOf shift st d
  (fix16_div (fix16_from_int f.1) mag,
   fix16_div (fix16_from_int f.2.1) mag,
   fix16_div (fix16_from_int f.2.2) mag)

/-- Tilt computation of level.c line 128 as a function of the normalized z
component: `fix16_acos(fix16_abs(accel_normalized[2])) * 1800 / fix16_pi`.
Both operands of the C `/` are the values below; `Int.tdiv` is C division. -/
def tiltOf (nz : Int) : Int := Int.tdiv (fix16_acos (fix16_abs nz) * 1800) fix16_pi

/-- Embedding of `accel_handler` (level.c lines 82-141) for one sample,
with the global `filter_shift` passed explicitly.  Returns the new global
state and, mirroring the spec interface
ingest : RawSample -> Option (NormalizedVector, TiltAngle),
`some` of the published pair exactly when the body that updates the display
runs, `none` when the sample is rejected and nothing is touched. -/
def accel_handler (shift : Nat) (st : EstState) (d : AccelData) :
    EstState × Option ((Int × Int × Int) × Int) :=
  if accepted d then
    let fs := newFS shift st d
    let nv := normalizedOf shift st d
    let a := tiltOf nv.2.2
    (⟨fs.1, fs.2.1, fs.2.2, nv.1, nv.2.1, nv.2.2, a⟩, some (nv, a))
  else
    (st, none)

/-- Signed 32-bit range predicate, for overflow claims about C int32_t
intermediates. -/
def int32Range (n : Int) : Prop := -(2 ^ 31) ≤ n ∧ n < 2 ^ 31

instance (n : Int) : Decidable (int32Range n) := by
  unfold int32Range
  infer_instance

/-! Helper lemmas shared by several proofs. -/

lemma two_pow_pos (a : Nat) : (0 : Int) < 2 ^ a := by positivity

lemma ediv_eq_band {a : Nat} {k s : Int} (h1 : k * 2 ^ a ≤ s) (h2 : s < k * 2 ^ a + 2 ^ a) :
    Int.ediv s (2 ^ a) = k := by
  have hm : (0 : Int) < 2 ^ a := two_pow_pos a
  have hle : k ≤ Int.ediv s (2 ^ a) := (Int.le_ediv_iff_mul_le hm).mpr h1
  have hlt : Int.ediv s (2 ^ a) < k + 1 := by
    refine (Int.ediv_lt_iff_lt_mul hm).mpr ?_
    linarith
  omega

/-- State transition of the filter under a constant input `k`: the new value
of the accumulator after one call of `filter`. -/
def constStep (shift : Nat) (k : Int) (s : Int) : Int := (filter shift s k).1

lemma constStep_band {a : Nat} {k s : Int} (h1 : k * 2 ^ a ≤ s)
    (h2 : s < k * 2 ^ a + 2 ^ a) : constStep a k s = s := by
  show s - asr s a + k = s
  unfold asr
  rw [ediv_eq_band h1 h2]
  ring

lemma constStep_below {a : Nat} {k s : Int} (h : s < k * 2 ^ a) :
    s < constStep a k s ∧ constStep a k s ≤ k * 2 ^ a := by
  have hm : (0 : Int) < 2 ^ a := two_pow_pos a
  have hq : 2 ^ a * Int.ediv s (2 ^ a) + Int.emod s (2 ^ a) = s := Int.ediv_add_emod s (2 ^ a)
  have hr0 : 0 ≤ Int.emod s (2 ^ a) := Int.emod_nonneg s (ne_of_gt hm)
  have hr1 : Int.emod s (2 ^ a) < 2 ^ a := Int.emod_lt_of_pos s hm
  have hqk : Int.ediv s (2 ^ a) < k := (Int.ediv_lt_iff_lt_mul hm).mpr h
  have hgoal : constStep a k s = s - Int.ediv s (2 ^ a) + k := rfl
  constructor
  · rw [hgoal]; omega
  · rw [hgoal]
    have hmul : Int.ediv s (2 ^ a) * (2 ^ a - 1) ≤ (k - 1) * (2 ^ a - 1) :=
      mul_le_mul_of_nonneg_right (by omega) (by linarith)
    nlinarith [hq, hr1, hmul]

lemma constStep_above {a : Nat} {k s : Int} (h : k * 2 ^ a + 2 ^ a ≤ s) :
    constStep a k s < s ∧ k * 2 ^ a ≤ constStep a k s := by
  have hm : (0 : Int) < 2 ^ a := two_pow_pos a
  have hq : 2 ^ a * Int.ediv s (2 ^ a) + Int.emod s (2 ^ a) = s := Int.ediv_add_emod s (2 ^ a)
  have hr0 : 0 ≤ Int.emod s (2 ^ a) := Int.emod_nonneg s (ne_of_gt hm)
  have hr1 : Int.emod s (2 ^ a) < 2 ^ a := Int.emod_lt_of_pos s hm
  have hqk : k + 1 ≤ Int.ediv s (2 ^ a) := by
    refine (Int.le_ediv_iff_mul_le hm).mpr ?_
    linarith
  have hgoal : constStep a k s = s - Int.ediv s (2 ^ a) + k := rfl
  constructor
  · rw [hgoal]; omega
  · rw [hgoal]
    have hmul : (k + 1) * (2 ^ a - 1) ≤ Int.ediv s (2 ^ a) * (2 ^ a - 1) :=
      mul_le_mul_of_nonneg_right hqk (by linarith)
    nlinarith [hq, hr0, hmul]

lemma dist_dec_below {t m s step : Int} (hm : 0 < m) (h : s < t) (h1 : s < step)
    (h2 : step ≤ t) (n : Nat) (hs : (t - s).toNat + (s - (t + m - 1)).toNat ≤ n + 1) :
    (t - step).toNat + (step - (t + m - 1)).toNat ≤ n := by omega

lemma dist_dec_above {t m s step : Int} (hm : 0 < m) (h : t + m ≤ s) (h1 : step < s)
    (h2 : t ≤ step) (n : Nat) (hs : (t - s).toNat + (s - (t + m - 1)).toNat ≤ n + 1) :
    (t - step).toNat + (step - (t + m - 1)).toNat ≤ n := by omega

lemma reach_band (a : Nat) (k : Int) : ∀ n : Nat, ∀ s : Int,
    (k * 2 ^ a - s).toNat + (s - (k * 2 ^ a + 2 ^ a - 1)).toNat ≤ n →
    ∃ N : Nat, k * 2 ^ a ≤ (constStep a k)^[N] s ∧
      (constStep a k)^[N] s < k * 2 ^ a + 2 ^ a := by
  have hm : (0 : Int) < 2 ^ a := two_pow_pos a
  intro n
  induction n with
  | zero =>
    intro s hs
    refine ⟨0, ?_, ?_⟩ <;> simp only [Function.iterate_zero_apply] <;> omega
  | succ n ih =>
    intro s hs
    by_cases hband : k * 2 ^ a ≤ s ∧ s < k * 2 ^ a + 2 ^ a
    · exact ⟨0, by simpa using hband.1, by simpa using hband.2⟩
    · have hcase : s < k * 2 ^ a ∨ k * 2 ^ a + 2 ^ a ≤ s := by omega
      have hdist : (k * 2 ^ a - constStep a k s).toNat +
          (constStep a k s - (k * 2 ^ a + 2 ^ a - 1)).toNat ≤ n := by
        rcases hcase with hbelow | habove
        · obtain ⟨hlt, hle⟩ := constStep_below hbelow
          exact dist_dec_below hm hbelow hlt hle n hs
        · obtain ⟨hlt, hle⟩ := constStep_above habove
          exact dist_dec_above hm habove hlt hle n hs
      obtain ⟨N, hN1, hN2⟩ := ih (constStep a k s) hdist
      refine ⟨N + 1, ?_, ?_⟩ <;> rw [Function.iterate_succ_apply] <;> assumption

lemma tdiv_eq_ediv_nonneg {a b : Int} (ha : 0 ≤ a) (hb : 0 ≤ b) :
    Int.tdiv a b = Int.ediv a b := Int.tdiv_eq_ediv ha hb

lemma fix16_acos_range {y : Int} (hy : 0 ≤ y) :
    0 ≤ fix16_acos y ∧ fix16_acos y ≤ 102944 := by
  unfold fix16_acos
  by_cases h1 : 65536 ≤ y
  · simp [h1]
  · have h2 : ¬ y ≤ -65536 := by omega
    simp only [h1, h2, if_false]
    have hy1 : y ≤ 65535 := by omega
    have he0 : 0 ≤ Int.ediv (102944 * y) 65536 :=
      Int.ediv_nonneg (by positivity) (by norm_num)
    have he1 : Int.ediv (102944 * y) 65536 ≤ Int.ediv (102944 * 65535) 65536 :=
      Int.ediv_le_ediv (by norm_num) (by nlinarith)
    have he2 : Int.ediv (102944 * 65535) 65536 = 102942 := by decide
    omega

lemma tiltOf_range (z : Int) : 0 ≤ tiltOf z ∧ tiltOf z ≤ 900 := by
  unfold tiltOf fix16_abs fix16_pi
  obtain ⟨h0, h1⟩ := fix16_acos_range (abs_nonneg z)
  have hnum0 : 0 ≤ fix16_acos |z| * 1800 := by positivity
  have hpi : (0 : Int) ≤ 205887 := by norm_num
  rw [tdiv_eq_ediv_nonneg hnum0 hpi,
    show Int.ediv (fix16_acos |z| * 1800) 205887 = fix16_acos |z| * 1800 / 205887 from rfl]
  constructor
  · exact Int.ediv_nonneg hnum0 hpi
  · have hle : fix16_acos |z| * 1800 ≤ 185299200 := by linarith
    have := Int.ediv_le_ediv (c := 205887) (by norm_num) hle
    have h900 : (185299200 : Int) / 205887 = 900 := by decide
    omega

/-! Theorems settling the claims. -/

/-- C1: the spec says an accepted sample whose filtered magnitude is zero is
skipped exactly like a rejected sample, leaving the NormalizedVector and
TiltAngle unchanged.  The code has no such guard: starting from the
zero-initialized globals, the sample (0, 0, 0) with did_vibrate false is
accepted, the computed magnitude is 0, and accel_handler still runs the
update, reaching fix16_div with a zero divisor, publishing an update and
overwriting the TiltAngle (0 before, 900 after). -/
theorem claim1_zero_magnitude_not_skipped :
    accepted ⟨0, 0, 0, false⟩ ∧
    magOf 3 initState ⟨0, 0, 0, false⟩ = 0 ∧
    (accel_handler 3 initState ⟨0, 0, 0, false⟩).2 ≠ none ∧
    initState.angle = 0 ∧
    (accel_handler 3 initState ⟨0, 0, 0, false⟩).1.angle = 900 := by
  decide

/-- C2: the spec and the comment at level.c line 116 say the magnitude-squared
accumulation cannot overflow a signed 32-bit integer.  That is false for
filter states reached after the filter strength is changed without resetting
the accumulators (level.c select_filter changes only filter_shift): feeding
the accepted sample (1199, 1199, 1199) four times at shift 4 from the initial
state and then once at shift 1 makes magsq = 2195269803, which exceeds
2^31 - 1 = 2147483647. -/
theorem claim2_magsq_overflows_after_strength_change :
    (let d : AccelData := ⟨1199, 1199, 1199, false⟩
     let s1 := (accel_handler 4 initState d).1
     let s2 := (accel_handler 4 s1 d).1
     let s3 := (accel_handler 4 s2 d).1
     let s4 := (accel_handler 4 s3 d).1
     accepted d ∧ magsqOf 1 s4 d = 2195269803 ∧ ¬ int32Range (magsqOf 1 s4 d)) := by
  decide

/-- C3: a sample with did_vibrate set is rejected by the guard at
level.c line 98: accel_handler returns "no update" and every field of the
estimator state (the three filter accumulators, the normalized vector and
the tilt angle) is left untouched. -/
theorem claim3_disturbed_sample_freezes_state (shift : Nat) (st : EstState)
    (d : AccelData) (h : d.did_vibrate = true) :
    accel_handler shift st d = (st, none) := by
  unfold accel_handler
  rw [if_neg]
  intro hacc
  rw [hacc.1] at h
  exact Bool.false_ne_true h

theorem claim3_witness :
    (⟨10, 20, 30, true⟩ : AccelData).did_vibrate = true ∧
    accel_handler 3 initState ⟨10, 20, 30, true⟩ = (initState, none) :=
  ⟨rfl, claim3_disturbed_sample_freezes_state 3 initState ⟨10, 20, 30, true⟩ rfl⟩

/-- C4: whenever any single axis magnitude exceeds 1200, the conjunction at
level.c line 98 is false, so accel_handler returns "no update" and performs
no state change, whatever the other axes and the did_vibrate flag are. -/
theorem claim4_threshold_rejects (shift : Nat) (st : EstState) (d : AccelData)
    (h : 1200 < |d.x| ∨ 1200 < |d.y| ∨ 1200 < |d.z|) :
    accel_handler shift st d = (st, none) := by
  unfold accel_handler
  rw [if_neg]
  intro hacc
  obtain ⟨-, hx, hy, hz⟩ := hacc
  rcases h with h | h | h <;> linarith

theorem claim4_witness :
    (1200 < |(⟨2000, 0, 0, true⟩ : AccelData).x| ∨
      1200 < |(⟨2000, 0, 0, true⟩ : AccelData).y| ∨
      1200 < |(⟨2000, 0, 0, true⟩ : AccelData).z|) ∧
    accel_handler 3 initState ⟨2000, 0, 0, true⟩ = (initState, none) :=
  ⟨Or.inl (by norm_num), claim4_threshold_rejects 3 initState ⟨2000, 0, 0, true⟩
    (Or.inl (by norm_num))⟩

/-- C5, counterexample: the claim that every update stores a vector with
x^2 + y^2 + z^2 within one fixed-point unit of 1 fails when the filtered
magnitude is small.  From the initial state, the accepted sample (1, 1, 1)
at shift 3 gives the filtered vector (2, 2, 2) and the stored normalized
vector (37871, 37871, 37871), whose sum of squares misses
fix16_one^2 = 65536^2 by 7670627, which is 117 fixed-point units. -/
theorem claim5_counterexample :
    (let d : AccelData := ⟨1, 1, 1, false⟩
     let r := accel_handler 3 initState d
     accepted d ∧ r.2 ≠ none ∧
     r.1.n0 = 37871 ∧ r.1.n1 = 37871 ∧ r.1.n2 = 37871 ∧
     ¬ |r.1.n0 * r.1.n0 + r.1.n1 * r.1.n1 + r.1.n2 * r.1.n2 - fix16_one * fix16_one|
        ≤ fix16_one) := by
  decide

/-- C5, amended: after any rejected sample the NormalizedVector (and all
other estimator state) retains exactly its previous value and no update is
published; for accepted samples the stored vector is only approximately
normalized, and its squared norm can miss 1 by far more than one
fixed-point unit when the filtered magnitude is small. -/
theorem claim5_amended_rejected_keeps_vector (shift : Nat) (st : EstState)
    (d : AccelData) (h : ¬ accepted d) :
    (accel_handler shift st d).1.n0 = st.n0 ∧
    (accel_handler shift st d).1.n1 = st.n1 ∧
    (accel_handler shift st d).1.n2 = st.n2 ∧
    (accel_handler shift st d).2 = none := by
  unfold accel_handler
  rw [if_neg h]
  exact ⟨rfl, rfl, rfl, rfl⟩

theorem claim5_witness :
    ¬ accepted ⟨1500, 0, 0, false⟩ ∧
    ((accel_handler 3 initState ⟨1500, 0, 0, false⟩).1.n0 = initState.n0 ∧
     (accel_handler 3 initState ⟨1500, 0, 0, false⟩).1.n1 = initState.n1 ∧
     (accel_handler 3 initState ⟨1500, 0, 0, false⟩).1.n2 = initState.n2 ∧
     (accel_handler 3 initState ⟨1500, 0, 0, false⟩).2 = none) :=
  ⟨by decide, claim5_amended_rejected_keeps_vector 3 initState ⟨1500, 0, 0, false⟩
    (by decide)⟩

/-- C6: for every prior state, input and shift, one call of the filter
replaces the state by state - (state >> a) + input and returns the new
state shifted right by a; and scaled by 2^a this realizes
y = (1 - 2^-a) * y_prev + 2^-a * x exactly up to the floor rounding of the
arithmetic shifts: 2^a * newstate equals (2^a - 1) * state + 2^a * input
plus the remainder state mod 2^a dropped by the shift, a quantity in
[0, 2^a); in particular the recurrence is exact whenever the state is the
output scaled by 2^a (remainder zero). -/
theorem claim6_filter_realizes_recurrence (shift : Nat) (s x : Int) :
    filter shift s x = (s - asr s shift + x, asr (s - asr s shift + x) shift) ∧
    2 ^ shift * (filter shift s x).1 =
      (2 ^ shift - 1) * s + 2 ^ shift * x + Int.emod s (2 ^ shift) ∧
    0 ≤ Int.emod s (2 ^ shift) ∧ Int.emod s (2 ^ shift) < 2 ^ shift ∧
    (filter shift s x).2 = Int.ediv (filter shift s x).1 (2 ^ shift) := by
  have hm : (0 : Int) < 2 ^ shift := two_pow_pos shift
  refine ⟨rfl, ?_, Int.emod_nonneg s (ne_of_gt hm), Int.emod_lt_of_pos s hm, rfl⟩
  have h := Int.ediv_add_emod s (2 ^ shift)
  show 2 ^ shift * (s - asr s shift + x) = _
  unfold asr
  linear_combination (-1 : Int) * h

/-- C7: under a constant input k ≥ 0 the state k * 2^a is a fixed point of
the filter whose output is exactly k, and from every initial state the
iterated filter eventually returns exactly k forever (steady-state gain 1). -/
theorem claim7_constant_input_converges (a : Nat) (k s0 : Int) (hk : 0 ≤ k) :
    (filter a (k * 2 ^ a) k).1 = k * 2 ^ a ∧
    (filter a (k * 2 ^ a) k).2 = k ∧
    ∃ N : Nat, ∀ n : Nat, N ≤ n → (filter a ((constStep a k)^[n] s0) k).2 = k := by
  have hm : (0 : Int) < 2 ^ a := two_pow_pos a
  have hband1 : k * 2 ^ a ≤ k * 2 ^ a := le_refl _
  have hband2 : k * 2 ^ a < k * 2 ^ a + 2 ^ a := by linarith
  have hfix : constStep a k (k * 2 ^ a) = k * 2 ^ a := constStep_band hband1 hband2
  refine ⟨hfix, ?_, ?_⟩
  · show asr (constStep a k (k * 2 ^ a)) a = k
    rw [hfix]
    exact ediv_eq_band hband1 hband2
  · obtain ⟨N, hN1, hN2⟩ := reach_band a k
      ((k * 2 ^ a - s0).toNat + (s0 - (k * 2 ^ a + 2 ^ a - 1)).toNat) s0 (le_refl _)
    refine ⟨N, fun n hn => ?_⟩
    obtain ⟨d, rfl⟩ := Nat.exists_eq_add_of_le hn
    have hiter : (constStep a k)^[N + d] s0 = (constStep a k)^[N] s0 := by
      rw [Nat.add_comm, Function.iterate_add_apply]
      exact Function.iterate_fixed (constStep_band hN1 hN2) d
    show asr (constStep a k ((constStep a k)^[N + d] s0)) a = k
    rw [hiter, constStep_band hN1 hN2]
    exact ediv_eq_band hN1 hN2

theorem claim7_witness :
    (0 : Int) ≤ 5 ∧
    ((filter 3 (5 * 2 ^ 3) 5).1 = 5 * 2 ^ 3 ∧
     (filter 3 (5 * 2 ^ 3) 5).2 = 5 ∧
     ∃ N : Nat, ∀ n : Nat, N ≤ n → (filter 3 ((constStep 3 5)^[n] 77) 5).2 = 5) :=
  ⟨by decide, claim7_constant_input_converges 3 5 77 (by decide)⟩

/-- C8: on every accepted sample the published and stored tilt angle is
tiltOf of the stored normalized z component, which is the fixed-point
arccosine of the absolute value of that component converted to tenths of a
degree; and tiltOf is even, so normalized z components v and -v (same x and
y) give the same TiltAngle: face-up and face-down are not distinguished. -/
theorem claim8_tilt_uses_abs_z (shift : Nat) (st : EstState) (d : AccelData)
    (h : accepted d) :
    (accel_handler shift st d).2 =
      some (normalizedOf shift st d, tiltOf (normalizedOf shift st d).2.2) ∧
    (accel_handler shift st d).1.angle = tiltOf (normalizedOf shift st d).2.2 ∧
    tiltOf (normalizedOf shift st d).2.2 =
      Int.tdiv (fix16_acos (fix16_abs (normalizedOf shift st d).2.2) * 1800) fix16_pi ∧
    ∀ v : Int, tiltOf (-v) = tiltOf v := by
  refine ⟨?_, ?_, rfl, ?_⟩
  · unfold accel_handler
    rw [if_pos h]
  · unfold accel_handler
    rw [if_pos h]
  · intro v
    unfold tiltOf fix16_abs
    rw [abs_neg]

theorem claim8_witness :
    accepted ⟨0, 0, 1000, false⟩ ∧
    ((accel_handler 3 initState ⟨0, 0, 1000, false⟩).2 =
      some (normalizedOf 3 initState ⟨0, 0, 1000, false⟩,
        tiltOf (normalizedOf 3 initState ⟨0, 0, 1000, false⟩).2.2) ∧
     (accel_handler 3 initState ⟨0, 0, 1000, false⟩).1.angle =
      tiltOf (normalizedOf 3 initState ⟨0, 0, 1000, false⟩).2.2 ∧
     tiltOf (normalizedOf 3 initState ⟨0, 0, 1000, false⟩).2.2 =
      Int.tdiv (fix16_acos
        (fix16_abs (normalizedOf 3 initState ⟨0, 0, 1000, false⟩).2.2) * 1800) fix16_pi ∧
     ∀ v : Int, tiltOf (-v) = tiltOf v) :=
  ⟨by decide, claim8_tilt_uses_abs_z 3 initState ⟨0, 0, 1000, false⟩ (by decide)⟩

/-- C9: because the arccosine argument is the absolute value of the
normalized z component, the tilt angle stored by every accepted sample lies
in [0, 900] tenths of a degree; the range (900, 1800] documented for the
data model is never produced. -/
theorem claim9_angle_at_most_900 (shift : Nat) (st : EstState) (d : AccelData)
    (h : accepted d) :
    0 ≤ (accel_handler shift st d).1.angle ∧
    (accel_handler shift st d).1.angle ≤ 900 := by
  unfold accel_handler
  rw [if_pos h]
  exact tiltOf_range (normalizedOf shift st d).2.2

theorem claim9_witness :
    accepted ⟨300, -400, 866, false⟩ ∧
    (0 ≤ (accel_handler 2 initState ⟨300, -400, 866, false⟩).1.angle ∧
     (accel_handler 2 initState ⟨300, -400, 866, false⟩).1.angle ≤ 900) :=
  ⟨by decide, claim9_angle_at_most_900 2 initState ⟨300, -400, 866, false⟩ (by decide)⟩

/-- C10: the acceptance test at level.c line 98 uses strict comparisons, so
a sample with an axis magnitude exactly equal to 1200 is rejected:
accel_handler returns "no update" and changes nothing. -/
theorem claim10_boundary_rejected (shift : Nat) (st : EstState) (d : AccelData)
    (h : |d.x| = 1200 ∨ |d.y| = 1200 ∨ |d.z| = 1200) :
    accel_handler shift st d = (st, none) := by
  unfold accel_handler
  rw [if_neg]
  intro hacc
  obtain ⟨-, hx, hy, hz⟩ := hacc
  rcases h with h | h | h <;> omega

theorem claim10_witness :
    (|(⟨1200, 0, 0, false⟩ : AccelData).x| = 1200 ∨
      |(⟨1200, 0, 0, false⟩ : AccelData).y| = 1200 ∨
      |(⟨1200, 0, 0, false⟩ : AccelData).z| = 1200) ∧
    accel_handler 3 initState ⟨1200, 0, 0, false⟩ = (initState, none) :=
  ⟨Or.inl (by norm_num), claim10_boundary_rejected 3 initState ⟨1200, 0, 0, false⟩
    (Or.inl (by norm_num))⟩

end Level
